import Mathlib

/-!
Verification of the WebM DASH JavaScript player core
(`shared/webm_parser.js`, `adaptive/dash_player_deprecated.js`).

The JavaScript source is shallowly embedded: byte buffers are `List ℕ`,
JavaScript numbers that only ever hold exact integral/decimal values are
`ℤ`/`ℚ`, and the 32-bit wrap-around of JavaScript bitwise operators is made
explicit through `jsToInt32`.  Status objects `{status, bytesUsed, value, …}`
become the inductive `WStatus`.  Mutation of `this` becomes explicit state
passing on small state structures that carry exactly the fields the embedded
functions touch.  External effects (logging, `window.setTimeout`, network
fetches, sink callbacks) are outside the state and are noted per definition.
-/

/-- JavaScript `ToInt32`: reduce an integer to the signed 32-bit value that
JavaScript bitwise operators (`<<`, `|`, `&`, `~`) work on. -/
def jsToInt32 (n : ℤ) : ℤ :=
  (n + 2 ^ 31) % 2 ^ 32 - 2 ^ 31

/-- JavaScript `(num << 8) | b` for `0 ≤ b < 256`: the shifted value has zero
low byte, so the bitwise or is addition. -/
def jsShl8Or (num b : ℤ) : ℤ :=
  jsToInt32 (num * 256) + b

/-- The status objects of `webm_parser.js`: `STATUS_OK` (0) carrying the
result fields, `STATUS_INVALID_DATA` (-1) carrying `reason`, and
`STATUS_NEED_MORE_DATA` (-2) carrying `bytesNeeded`. -/
inductive WStatus (α : Type) where
  | ok (value : α)
  | invalidData (reason : String)
  | needMoreData (bytesNeeded : ℤ)
deriving DecidableEq

/-- `buf[start]` on a `Uint8Array`: out-of-range reads give `undefined`,
which every bitwise use in the source coerces to 0. -/
def byteAt (buf : List ℕ) (start : ℕ) : ℕ :=
  buf.getD start 0

/-- The run-length marker search of `EbmlParser.parseNum_` (lines 60-71):
the first `i < maxBytes` with `(ch & (0x80 >> i)) == (0x80 >> i)`. -/
def ebmlMarkerIndex (ch : ℕ) (maxBytes : ℕ) : Option ℕ :=
  (List.range maxBytes).find? (fun i => ch &&& (0x80 >>> i) == 0x80 >>> i)

/-- The total byte count the EBML variable-length number starting at
`buf[start]` occupies, read off its run-length marker byte: `none` when no
marker bit exists within `maxBytes` bytes. -/
def ebmlRequiredBytes (buf : List ℕ) (start : ℕ) (maxBytes : ℕ) : Option ℕ :=
  (ebmlMarkerIndex (byteAt buf start) maxBytes).map (· + 1)

/-- `EbmlParser.parseNum_` (webm_parser.js lines 57-89).  On `STATUS_OK` the
value pair is `(bytesUsed, value)`; the accumulation `num = (num << 8) | byte`
uses JavaScript 32-bit bitwise semantics (`jsShl8Or`). -/
def parseNum (buf : List ℕ) (start : ℕ) (size : ℤ) (maxBytes : ℕ)
    (maskFirstByte : Bool) : WStatus (ℕ × ℤ) :=
  if size ≤ 0 then .needMoreData 1
  else
    let ch := byteAt buf start
    match ebmlMarkerIndex ch maxBytes with
    | none => .invalidData "Invalid extraBytes field"
    | some extraBytes =>
      let mask := 0x80 >>> extraBytes
      let num0 : ℤ := if maskFirstByte then ((ch &&& (0xFFFFFFFF ^^^ mask) : ℕ) : ℤ) else (ch : ℤ)
      if (1 + extraBytes : ℤ) > size then .needMoreData (1 + extraBytes - size)
      else
        let num := (List.range extraBytes).foldl
          (fun num j => jsShl8Or num ((byteAt buf (start + 1 + j) &&& 0xff : ℕ) : ℤ)) num0
        .ok (1 + extraBytes, num)

/-- `EbmlParser.parseUInt` (webm_parser.js lines 141-154).  The accumulation
`val <<= 8; val |= buf[start + i] & 0xff` runs on JavaScript signed 32-bit
integers, embedded via `jsShl8Or`. -/
def parseUInt (buf : List ℕ) (start : ℕ) (size : ℤ) : WStatus (ℕ × ℤ) :=
  if size < 1 ∨ size > 8 then .invalidData ""
  else
    let val := (List.range size.toNat).foldl
      (fun val i => jsShl8Or val ((byteAt buf (start + i) &&& 0xff : ℕ) : ℤ)) 0
    .ok (size.toNat, val)

/-- The value the spec asks `parseUInt` for, following its words: "the
big-endian unsigned integer formed from the `size` bytes starting at the
given offset". -/
def specBigEndianUInt (buf : List ℕ) (start : ℕ) (size : ℕ) : ℕ :=
  (List.range size).foldl (fun val i => val * 256 + (byteAt buf (start + i) % 256)) 0

/-- `EbmlParser.parseElementHeader` result on `STATUS_OK`: `bytesUsed`, plus
`id`/`elementSize` when present (the `size == 0` terminator return carries
neither field, hence the `Option`s). -/
structure ElementHeaderRes where
  bytesUsed : ℕ
  id : Option ℤ
  elementSize : Option ℤ
deriving DecidableEq

/-- `EbmlParser.parseElementHeader` (webm_parser.js lines 100-131): an ID
varint (up to 4 bytes, first byte unmasked) then a size varint (up to 8
bytes, first byte masked). -/
def parseElementHeader (buf : List ℕ) (start : ℕ) (size : ℤ) :
    WStatus ElementHeaderRes :=
  if size = 0 then .ok ⟨0, none, none⟩
  else
    match parseNum buf start size 4 false with
    | .invalidData r => .invalidData r
    | .needMoreData n => .needMoreData n
    | .ok (bytesUsed, id) =>
      if bytesUsed ≤ 0 then .invalidData ""
      else
        match parseNum buf (start + bytesUsed) (size - bytesUsed) 8 true with
        | .invalidData r => .invalidData r
        | .needMoreData n => .needMoreData n
        | .ok (bytesUsed2, elementSize) =>
          if bytesUsed2 ≤ 0 then .invalidData ""
          else .ok ⟨bytesUsed + bytesUsed2, some id, some elementSize⟩

/-- The `seekHead_` object: offsets stored under the names the source uses
(`seekHead['CUES']`, `seekHead['CLUSTER']`); an absent key is `none`
(JavaScript `undefined`). -/
structure SeekHead where
  cuesOffset : Option ℚ
  clusterOffset : Option ℚ
deriving DecidableEq

/-- A CueTrackPositions value as `parseTrackPosition_` builds it (the field
the cue logic reads). -/
structure TrackPosition where
  cueClusterPos : ℚ
deriving DecidableEq, Inhabited

/-- A CuePoint as `parseCuePoint_` builds it: time already in seconds,
cluster position already shifted by the segment offset. -/
structure CuePoint where
  cueTime : ℚ
  trackPosition : TrackPosition
deriving DecidableEq, Inhabited

/-- The `WebMParser` instance fields that the embedded operations touch
(constructor, webm_parser.js lines 321-331; initial values `-1`, `null`,
`1000000`, `-1`, `null`). -/
structure WebMParserState where
  segmentOffset : ℚ
  seekHead : Option SeekHead
  timecodeScale : ℚ
  duration : ℚ
  cues : Option (List CuePoint)
deriving DecidableEq

/-- `WebMParser.prototype.setSegmentOffset` (lines 596-599): assigns whenever
`offset > 0`. -/
def setSegmentOffset (st : WebMParserState) (offset : ℚ) : WebMParserState :=
  if offset > 0 then { st with segmentOffset := offset } else st

/-- `WebMParser.prototype.getCues` (lines 1170-1172). -/
def getCues (st : WebMParserState) : Option (List CuePoint) :=
  st.cues

/-- The `res.value` object `parseList_(SEGMENT_IDS_, …)` hands back to
`parseSegmentHeaders` (the fields lines 1070-1076 read). -/
structure SegListValue where
  seekHead : SeekHead
  infoTimecodeScale : ℚ
  infoDuration : ℚ

/-- `WebMParser.prototype.parseSegmentHeaders` (lines 1041-1079).  The
`parseList_(SEGMENT_IDS_, …)` call is abstracted as the parameter
`parseListSeg` (state in, state plus `{bytesUsed, value}` out); with
`SEGMENT_IDS_` its handlers (`parseSeekHead_`, `parseInfo_`, `parseTracks_`)
read but never assign `segmentOffset_`, which the theorems about this
function take as a hypothesis on `parseListSeg`.  All other control flow —
the Segment element-header parse, the ID check against 0x18538067, the
first-sight `segmentOffset_` assignment guarded by `== -1`, and the
`seekHead_`/`timecodeScale_`/`duration_` updates — follows the source. -/
def parseSegmentHeaders
    (parseListSeg : WebMParserState → List ℕ → ℕ → ℤ → WebMParserState × WStatus (ℕ × SegListValue))
    (st : WebMParserState) (buf : List ℕ) (start : ℕ) (size : ℤ) (bufOffset : ℚ) :
    WebMParserState × WStatus ℕ :=
  match parseElementHeader buf start size with
  | .invalidData r => (st, .invalidData r)
  | .needMoreData n => (st, .needMoreData n)
  | .ok hdr =>
    if hdr.id ≠ some 0x18538067 then
      (st, .invalidData "Unexpected element ID. Expected a Segment ID")
    else
      let readOffset := start + hdr.bytesUsed
      let st1 := if st.segmentOffset = -1 then { st with segmentOffset := (readOffset : ℚ) } else st
      match parseListSeg st1 buf readOffset (size - hdr.bytesUsed) with
      | (st2, .invalidData r) => (st2, .invalidData r)
      | (st2, .needMoreData n) => (st2, .needMoreData n)
      | (st2, .ok (bytesUsed2, v)) =>
        let readOffset2 := readOffset + bytesUsed2
        let sh := { v.seekHead with clusterOffset := some ((readOffset2 : ℚ) + bufOffset) }
        let timeScale := v.infoTimecodeScale / 1000000000
        let st3 := { st2 with seekHead := some sh, timecodeScale := v.infoTimecodeScale }
        let st4 :=
          if v.infoDuration > 0 ∧ st3.duration = -1 then
            { st3 with duration := v.infoDuration * timeScale }
          else st3
        (st4, .ok (readOffset2 - start))

/-- The body of the splice loop of `WebMParser.prototype.squishCues`
(lines 1150-1161) with the current survivor `cueCurr` carried explicitly:
when `cueNext` shares its `cueClusterPos` it is spliced out and the same
survivor is compared against the following element again; otherwise the
survivor is kept and the walk moves on. -/
def squishGo (cueCurr : CuePoint) : List CuePoint → List CuePoint
  | [] => [cueCurr]
  | cueNext :: rest =>
    if cueCurr.trackPosition.cueClusterPos = cueNext.trackPosition.cueClusterPos then
      squishGo cueCurr rest
    else
      cueCurr :: squishGo cueNext rest

/-- The splice loop of `WebMParser.prototype.squishCues` (lines 1150-1161)
over a whole cue list. -/
def squishList : List CuePoint → List CuePoint
  | [] => []
  | c :: rest => squishGo c rest

/-- `WebMParser.prototype.squishCues` (lines 1144-1164). -/
def squishCues (st : WebMParserState) : WebMParserState × WStatus Bool :=
  match st.cues with
  | none => (st, .invalidData "Cues is not valid.")
  | some l => ({ st with cues := some (squishList l) }, .ok true)

/-- The `WebMFileParser` instance fields the embedded operations touch
(`this.parser`, possibly null). -/
structure WebMFileParserState where
  parser : Option WebMParserState
deriving DecidableEq

/-- `WebMFileParser.prototype.canSeek` (lines 1397-1399):
`this.parser != null && this.parser.getCues() != null`. -/
def canSeek (fp : WebMFileParserState) : Bool :=
  match fp.parser with
  | none => false
  | some p => (getCues p).isSome

/-- The `AdaptiveWebMFile` field its `canSeek` reads. -/
structure AdaptiveWebMFileState where
  parser : Option WebMFileParserState
deriving DecidableEq

/-- `AdaptiveWebMFile.prototype.canSeek` (dash_player_deprecated.js lines
99-101): `this.parser && this.parser.canSeek()`. -/
def adaptiveCanSeek (f : AdaptiveWebMFileState) : Bool :=
  match f.parser with
  | none => false
  | some fp => canSeek fp

/-- A cueDesc object as `getCueDescFromCue_` builds it. -/
structure CueDesc where
  time : ℚ
  offset : ℚ
  size : ℚ
  endTime : ℚ
deriving DecidableEq, Inhabited

/-- The `cueEnd` scan of `getCueDescFromCue_` (lines 1632-1636): the first
index at or after `k` whose `cueClusterPos` differs from `startOffset`, or
`cues.length`. -/
def scanCueEnd (cues : List CuePoint) (startOffset : ℚ) (k : ℕ) : ℕ :=
  if k < cues.length then
    if (cues.getD k default).trackPosition.cueClusterPos = startOffset then
      scanCueEnd cues startOffset (k + 1)
    else k
  else k
termination_by cues.length - k

/-- `WebMFileParser.prototype.getCueDescFromCue_` (lines 1616-1661).  For the
last distinct offset the size falls back to `seekHead['CUES'] - startOffset`
whenever that entry exists and exceeds the offset (otherwise stays `-1`), and
`endTime` becomes `duration_` (which is `-1` while unknown). -/
def getCueDescFromCue (st : WebMParserState) (index : ℕ) : WStatus CueDesc :=
  match getCues st with
  | none => .invalidData "Cues is not valid."
  | some cues =>
    if cues.length = 0 then .invalidData "Cues is not valid."
    else if cues.length ≤ index then .invalidData "Cues index is out of bounds."
    else
      let startOffset := (cues.getD index default).trackPosition.cueClusterPos
      let cueEnd := scanCueEnd cues startOffset (index + 1)
      let size : ℚ :=
        if cueEnd < cues.length then
          (cues.getD cueEnd default).trackPosition.cueClusterPos - startOffset
        else
          match st.seekHead with
          | some sh =>
            match sh.cuesOffset with
            | some c => if c > startOffset then c - startOffset else -1
            | none => -1
          | none => -1
      let endTime : ℚ :=
        if cueEnd < cues.length then (cues.getD cueEnd default).cueTime
        else st.duration
      .ok { time := (cues.getD index default).cueTime, offset := startOffset,
            size := size, endTime := endTime }

/-- The `while (l + 1 < r)` binary-search loop shared by
`getCueIndexFromTime_`/`getClusterOffset`/`getCueDescFromOffset`
(lines 1731-1739): `m = l + Math.round((r - l) / 2)`, move `l` up when
`cues[m].cueTime <= time`, else move `r` down. -/
def bsearchTime (cues : List CuePoint) (time : ℚ) (l r : ℕ) : ℕ :=
  if l + 1 < r then
    let m := l + (r - l + 1) / 2
    if (cues.getD m default).cueTime ≤ time then bsearchTime cues time m r
    else bsearchTime cues time l m
  else l
termination_by r - l
decreasing_by all_goals omega

/-- `WebMFileParser.prototype.getCueIndexFromTime_` (lines 1719-1743). -/
def getCueIndexFromTime (st : WebMParserState) (time : ℚ) : WStatus ℕ :=
  match getCues st with
  | none => .invalidData "Cues is not valid."
  | some cues =>
    if cues.length = 0 then .invalidData "Cues is not valid."
    else
      let r := cues.length - 1
      let l := if time ≥ (cues.getD r default).cueTime then r else 0
      .ok (bsearchTime cues time l r)

/-- The `while (index < cues.length && secDownloading < timeToSearch)` walk
of `bufferSizeAfterTime` (lines 1925-1949), accumulating
`(secDownloading, secDownloaded)`; when an added cue pushes the download
wall-time past `timeToSearch` the whole accumulated media time is scaled by
`timeToSearch / secDownloading` and the walk stops. -/
def bufLoop (st : WebMParserState) (cuesLen : ℕ) (timeToSearch kbps : ℚ)
    (index : ℕ) (secDownloading secDownloaded : ℚ) : WStatus (ℚ × ℚ) :=
  if index < cuesLen ∧ secDownloading < timeToSearch then
    match getCueDescFromCue st index with
    | .invalidData r => .invalidData r
    | .needMoreData n => .needMoreData n
    | .ok currentCueDesc =>
      let cueBytes := currentCueDesc.size
      let cueSec := currentCueDesc.endTime - currentCueDesc.time
      let timeToDownload := cueBytes * 8 / 1000 / kbps
      let secDownloading2 := secDownloading + timeToDownload
      let secDownloaded2 := secDownloaded + cueSec
      if secDownloading2 > timeToSearch then
        .ok (timeToSearch, (timeToSearch / secDownloading2) * secDownloaded2)
      else bufLoop st cuesLen timeToSearch kbps (index + 1) secDownloading2 secDownloaded2
  else .ok (secDownloading, secDownloaded)
termination_by cuesLen - index
decreasing_by omega

/-- `WebMFileParser.prototype.bufferSizeAfterTime` (lines 1883-1959).  Exact
rational arithmetic stands in for JavaScript doubles; the one divergence is
division by zero (`percent` when the starting cue has zero extent), which is
0 in ℚ and NaN in JavaScript — the theorems below exclude it.  On `STATUS_OK`
the value pair is `(seconds, buffer)`. -/
def bufferSizeAfterTime (st : WebMParserState) (time timeToSearch kbps buffer : ℚ) :
    WStatus (ℚ × ℚ) :=
  match getCueIndexFromTime st time with
  | .invalidData r => .invalidData r
  | .needMoreData n => .needMoreData n
  | .ok startingIndex =>
    match getCueDescFromCue st startingIndex with
    | .invalidData r => .invalidData r
    | .needMoreData n => .needMoreData n
    | .ok currentCueDesc =>
      let init : ℕ × ℚ × ℚ :=
        if time > currentCueDesc.time then
          let cueSec := currentCueDesc.endTime - time
          let percent := cueSec / (currentCueDesc.endTime - currentCueDesc.time)
          let cueBytes := currentCueDesc.size * percent
          let timeToDownload := cueBytes * 8 / 1000 / kbps
          if timeToDownload > timeToSearch then
            (startingIndex + 1, timeToSearch, (timeToSearch / timeToDownload) * cueSec)
          else
            (startingIndex + 1, timeToDownload, cueSec)
        else (startingIndex, 0, 0)
      match getCues st with
      | none => .invalidData "Cues is not valid."
      | some cues =>
        if cues.length = 0 then .invalidData "Cues is not valid."
        else
          match bufLoop st cues.length timeToSearch kbps init.1 init.2.1 init.2.2 with
          | .invalidData r => .invalidData r
          | .needMoreData n => .needMoreData n
          | .ok (secDownloading, secDownloaded) =>
            .ok (secDownloading, secDownloaded - secDownloading + buffer)

/-- `DashPlayer.STOPPED` (dash_player_deprecated.js line 586). -/
def DASH_STOPPED : ℕ := 0

/-- `DashPlayer.PARSING_HEADERS` (line 592). -/
def DASH_PARSING_HEADERS : ℕ := 1

/-- `DashPlayer.LOADING` (line 600). -/
def DASH_LOADING : ℕ := 2

/-- `DashPlayer.SEEKING` (line 607). -/
def DASH_SEEKING : ℕ := 3

/-- `DashPlayer.ERROR` (line 614). -/
def DASH_ERROR : ℕ := 6

/-- The `AdaptiveWebMStream` fields (dash_player_deprecated.js lines
386-469): the two lock-step queues, the fetch bookkeeping and the
`lastTimeSent_` watermark.  Cluster buffers are byte lists. -/
structure StreamState where
  checkSwitching : Bool
  cueDescQueue : List CueDesc
  clusterQueue : List (List ℕ)
  clusterQueueThreshold : ℕ
  cueBytesDownloaded : ℚ
  fetchingClusters : Bool
  endOfClusters : Bool
  lastTimeSent : ℚ
  cueDesc : CueDesc
deriving DecidableEq

/-- `AdaptiveWebMStream.prototype.front` (lines 476-486): pop the head of
both queues and advance `lastTimeSent_` to the popped cue's `endTime`; on an
empty cluster queue return `null` untouched.  Returns `(data, new state)`. -/
def front (s : StreamState) : Option (List ℕ) × StreamState :=
  match s.clusterQueue with
  | [] => (none, s)
  | c :: rest =>
    (some c,
     { s with lastTimeSent := (s.cueDescQueue.headD default).endTime,
              clusterQueue := rest,
              cueDescQueue := s.cueDescQueue.tail })

/-- `AdaptiveWebMStream.prototype.checkFront` (lines 494-507): like `front`
but pops only when the head cue's start `time` is `≤ time`. -/
def checkFront (s : StreamState) (time : ℚ) : Option (List ℕ) × StreamState :=
  match s.clusterQueue with
  | [] => (none, s)
  | c :: rest =>
    let cue := s.cueDescQueue.headD default
    if cue.time ≤ time then
      (some c,
       { s with clusterQueue := rest,
                cueDescQueue := s.cueDescQueue.tail,
                lastTimeSent := cue.endTime })
    else (none, s)

/-- `AdaptiveWebMStream.prototype.empty` (lines 513-515). -/
def streamEmpty (s : StreamState) : Bool :=
  s.clusterQueue.length = 0

/-- `AdaptiveWebMStream.prototype.addNewCluster` (lines 521-524). -/
def addNewCluster (s : StreamState) : Bool :=
  !s.endOfClusters && !s.fetchingClusters &&
    s.clusterQueue.length < s.clusterQueueThreshold

/-- `DashPlayer.prototype.onClusterDownloadedDesc` (lines 1474-1583) as a
transformer of the stream it was handed; `playerState` and `seekSequenceNum`
are the controller fields the guards read, `seqNum` the sequence number the
fetch captured at issue time.  Logging, `window.setTimeout` re-triggers, the
`chunk_download` event and the follow-up fetch issue are external effects and
do not touch the stream fields. -/
def onClusterDownloadedDesc (playerState seekSequenceNum : ℕ) (stream : StreamState)
    (nextCueDesc : Option CueDesc) (seqNum : ℕ) (buf : Option (List ℕ)) : StreamState :=
  if playerState = DASH_SEEKING then { stream with fetchingClusters := false }
  else if playerState = DASH_STOPPED then { stream with fetchingClusters := false }
  else if playerState ≠ DASH_LOADING then { stream with fetchingClusters := false }
  else if seqNum ≠ seekSequenceNum then { stream with fetchingClusters := false }
  else
    match buf with
    | none => { stream with fetchingClusters := false, endOfClusters := true }
    | some b =>
      let s1 := { stream with
        cueBytesDownloaded := stream.cueBytesDownloaded + b.length,
        clusterQueue := stream.clusterQueue ++ [b],
        cueDescQueue := stream.cueDescQueue ++ [stream.cueDesc] }
      if s1.cueBytesDownloaded = s1.cueDesc.size then
        let s2 := { s1 with fetchingClusters := false, cueBytesDownloaded := 0 }
        match nextCueDesc with
        | none => { s2 with endOfClusters := true }
        | some nd => { s2 with cueDesc := nd }
      else s1

/-- `DashPlayer.prototype.onPartialCueDescDownload` (lines 2392-2495), same
conventions as `onClusterDownloadedDesc`; returns the updated stream and the
`stream.fetchingClusters_` value the source returns. -/
def onPartialCueDescDownload (playerState seekSequenceNum : ℕ) (stream : StreamState)
    (nextCueDesc : Option CueDesc) (seqNum : ℕ) (buf : Option (List ℕ)) :
    StreamState × Bool :=
  let cueFinished : Bool :=
    match nextCueDesc with
    | some nd => stream.cueDesc.offset != nd.offset
    | none => true
  if playerState = DASH_SEEKING then
    let s := if cueFinished then { stream with fetchingClusters := false } else stream
    (s, s.fetchingClusters)
  else if playerState = DASH_STOPPED then
    ({ stream with fetchingClusters := false }, false)
  else if playerState ≠ DASH_LOADING then
    ({ stream with fetchingClusters := false }, false)
  else if seqNum ≠ seekSequenceNum then
    let s := if cueFinished then { stream with fetchingClusters := false } else stream
    (s, s.fetchingClusters)
  else
    match buf with
    | none => ({ stream with fetchingClusters := false, endOfClusters := true }, false)
    | some b =>
      let s1 := { stream with
        cueBytesDownloaded := stream.cueBytesDownloaded + b.length,
        clusterQueue := stream.clusterQueue ++ [b],
        cueDescQueue := stream.cueDescQueue ++ [stream.cueDesc] }
      if cueFinished then
        let s2 := { s1 with fetchingClusters := false, cueBytesDownloaded := 0 }
        let s3 :=
          match nextCueDesc with
          | none => { s2 with endOfClusters := true }
          | some nd => { s2 with cueDesc := nd }
        (s3, s3.fetchingClusters)
      else (s1, s1.fetchingClusters)

/-- What one send pass hands outward: the updated streams, the buffers
appended to the sink in order, and whether `this.endOfStream()` ran. -/
structure SendResult where
  vid : StreamState
  aud : Option StreamState
  appended : List (List ℕ)
  endOfStreamSignaled : Bool
deriving DecidableEq

/-- `DashPlayer.prototype.sendClusters` (lines 1382-1414): audio first via
`checkFront` against the video watermark, then video via `front`; signals
end-of-stream on the end-of-clusters flags alone.  The trailing
`fetchMoreClusters()` call is an external effect. -/
def sendClusters (vid : StreamState) (aud : Option StreamState) : SendResult :=
  let audStep :=
    match aud with
    | some a => let (d, a2) := checkFront a vid.lastTimeSent; (d, some a2)
    | none => (none, none)
  let (vidData, vid2) := front vid
  let appended := (audStep.1.toList) ++ vidData.toList
  let eos :=
    if vid2.endOfClusters then
      match audStep.2 with
      | some a2 => a2.endOfClusters
      | none => true
    else false
  { vid := vid2, aud := audStep.2, appended := appended, endOfStreamSignaled := eos }

/-- `DashPlayer.prototype.sendPartialClusters` (lines 2501-2546): audio is
drained unconditionally once video is end-of-clusters and empty, otherwise
gated by the video watermark; end-of-stream requires video end-of-clusters
and empty plus, when audio exists, audio empty and end-of-clusters (a
non-empty audio queue reschedules instead). -/
def sendPartialClusters (vid : StreamState) (aud : Option StreamState) : SendResult :=
  let audStep :=
    match aud with
    | some a =>
      if vid.endOfClusters && streamEmpty vid then
        let (d, a2) := front a; (d, some a2)
      else
        let (d, a2) := checkFront a vid.lastTimeSent; (d, some a2)
    | none => (none, none)
  let (vidData, vid2) := front vid
  let appended := (audStep.1.toList) ++ vidData.toList
  let eos :=
    if vid2.endOfClusters && streamEmpty vid2 then
      match audStep.2 with
      | some a2 => if !(streamEmpty a2) then false else a2.endOfClusters
      | none => true
    else false
  { vid := vid2, aud := audStep.2, appended := appended, endOfStreamSignaled := eos }

/-- A cue point literal: time and cluster position. -/
def mkCue (t p : ℚ) : CuePoint :=
  ⟨t, ⟨p⟩⟩

/-- A parser state literal over a cue list, a stored Cues-element offset and
a duration (the other fields at their constructor defaults). -/
def mkParserState (cues : Option (List CuePoint)) (cuesOffset : Option ℚ)
    (duration : ℚ) : WebMParserState :=
  { segmentOffset := -1, seekHead := some ⟨cuesOffset, none⟩,
    timecodeScale := 1000000, duration := duration, cues := cues }

/-- The three-cue example of the spec: post-squish offsets 100, 250, 400 with
the Cues element stored at offset 500, duration still unknown. -/
def exCues3 : List CuePoint :=
  [mkCue 0 100, mkCue 1 250, mkCue 2 400]

/-- Parser state over `exCues3`. -/
def exState3 : WebMParserState :=
  mkParserState (some exCues3) (some 500) (-1)

/-- A cue layout on which `bufferSizeAfterTime` is not monotone in `kbps`:
one light cluster covering 100 s of media followed by one very heavy cluster
covering 1 s. -/
def exCuesHeavy : List CuePoint :=
  [mkCue 0 0, mkCue 100 125000, mkCue 101 125125000]

/-- Parser state over `exCuesHeavy`. -/
def exStateHeavy : WebMParserState :=
  mkParserState (some exCuesHeavy) (some 125250000) 200

/-- A single-cue parser state on which the `bufferSizeAfterTime` walk
completes without reaching the wallclock horizon. -/
def exStateOneCue : WebMParserState :=
  mkParserState (some [mkCue 0 0]) (some 1000) 10

/-- A stream-state literal: the queues, flags and watermark of one
`AdaptiveWebMStream`. -/
def mkStream (cueDescQueue : List CueDesc) (clusterQueue : List (List ℕ))
    (fetching eoc : Bool) (lastTimeSent : ℚ) (cueDesc : CueDesc) : StreamState :=
  { checkSwitching := false, cueDescQueue := cueDescQueue,
    clusterQueue := clusterQueue, clusterQueueThreshold := 30,
    cueBytesDownloaded := 0, fetchingClusters := fetching,
    endOfClusters := eoc, lastTimeSent := lastTimeSent, cueDesc := cueDesc }


/-- C7 (code_bug): `parseUInt` rejects sizes outside 1..8 and reports
`bytesUsed = size`, but its value accumulation runs on JavaScript signed
32-bit integers, so the four bytes FF FF FF FF decode to -1 instead of the
big-endian unsigned 4294967295 that the documentation and spec describe; a
two-byte value still inside 32 bits decodes correctly. -/
theorem parseUInt_bug_at_32_bits :
    parseUInt [255, 255, 255, 255] 0 4 = .ok (4, -1) ∧
    specBigEndianUInt [255, 255, 255, 255] 0 4 = 4294967295 ∧
    parseUInt [255, 255, 255, 255] 0 4 ≠ .ok (4, (4294967295 : ℤ)) ∧
    parseUInt [1, 2] 0 2 = .ok (2, (specBigEndianUInt [1, 2] 0 2 : ℤ)) ∧
    parseUInt [255] 0 0 = .invalidData "" ∧
    parseUInt [255] 0 9 = .invalidData "" := by
  refine ⟨by decide, by decide, by decide, by decide, by decide, by decide⟩

/-- C10: `front` on an empty cluster queue returns `null` and leaves the
stream (both queues and `lastTimeSent_`) untouched; on a non-empty queue it
pops the head of the cluster queue and of the cue-descriptor queue in
lock-step and sets `lastTimeSent_` to the popped cue's `endTime`. -/
theorem front_pop_spec (s : StreamState) :
    (s.clusterQueue = [] → front s = (none, s)) ∧
    (∀ c cs d ds, s.clusterQueue = c :: cs → s.cueDescQueue = d :: ds →
      front s = (some c, { s with
        clusterQueue := cs, cueDescQueue := ds, lastTimeSent := d.endTime })) := by
  constructor
  · intro h
    simp [front, h]
  · intro c cs d ds h1 h2
    simp [front, h1, h2]

/-- C4: a cluster-fetch completion whose captured sequence number differs
from the controller's current seek sequence number never pushes its buffer:
both the whole-cluster callback `onClusterDownloadedDesc` and the partial
callback `onPartialCueDescDownload` leave `clusterQueue` and `cueDescQueue`
exactly as they were, in every player state. -/
theorem stale_seqnum_never_queued (playerState seekSequenceNum : ℕ)
    (stream : StreamState) (nextCueDesc : Option CueDesc) (seqNum : ℕ)
    (buf : Option (List ℕ)) (hseq : seqNum ≠ seekSequenceNum) :
    (onClusterDownloadedDesc playerState seekSequenceNum stream nextCueDesc
        seqNum buf).clusterQueue = stream.clusterQueue ∧
    (onClusterDownloadedDesc playerState seekSequenceNum stream nextCueDesc
        seqNum buf).cueDescQueue = stream.cueDescQueue ∧
    ((onPartialCueDescDownload playerState seekSequenceNum stream nextCueDesc
        seqNum buf).1).clusterQueue = stream.clusterQueue ∧
    ((onPartialCueDescDownload playerState seekSequenceNum stream nextCueDesc
        seqNum buf).1).cueDescQueue = stream.cueDescQueue := by
  unfold onClusterDownloadedDesc onPartialCueDescDownload
  refine ⟨?_, ?_, ?_, ?_⟩ <;>
    (split_ifs <;> simp_all <;> (try split) <;> simp_all)

/-- C4 witness: a completion carrying sequence number 0 after the controller
has advanced to 1 leaves the queues of a concrete loading-state stream
unchanged. -/
theorem stale_seqnum_never_queued_witness :
    (onClusterDownloadedDesc DASH_LOADING 1
        (mkStream [] [] true false 0 ⟨0, 0, 4, 1⟩) none 0 (some [1, 2])).clusterQueue
      = (mkStream [] [] true false 0 ⟨0, 0, 4, 1⟩).clusterQueue ∧
    (onClusterDownloadedDesc DASH_LOADING 1
        (mkStream [] [] true false 0 ⟨0, 0, 4, 1⟩) none 0 (some [1, 2])).cueDescQueue
      = (mkStream [] [] true false 0 ⟨0, 0, 4, 1⟩).cueDescQueue ∧
    ((onPartialCueDescDownload DASH_LOADING 1
        (mkStream [] [] true false 0 ⟨0, 0, 4, 1⟩) none 0 (some [1, 2])).1).clusterQueue
      = (mkStream [] [] true false 0 ⟨0, 0, 4, 1⟩).clusterQueue ∧
    ((onPartialCueDescDownload DASH_LOADING 1
        (mkStream [] [] true false 0 ⟨0, 0, 4, 1⟩) none 0 (some [1, 2])).1).cueDescQueue
      = (mkStream [] [] true false 0 ⟨0, 0, 4, 1⟩).cueDescQueue :=
  stale_seqnum_never_queued DASH_LOADING 1 (mkStream [] [] true false 0 ⟨0, 0, 4, 1⟩)
    none 0 (some [1, 2]) (by decide)

/-- C8 (amended): `canSeek` at both levels tests only that the parser and
its cue table are non-null — an empty cue table still counts as seekable. -/
theorem canSeek_iff_cues_non_null (fp : WebMFileParserState) :
    (canSeek fp = true ↔ ∃ p cs, fp.parser = some p ∧ p.cues = some cs) ∧
    (∀ f : AdaptiveWebMFileState, adaptiveCanSeek f = true ↔
      ∃ fp2 p cs, f.parser = some fp2 ∧ fp2.parser = some p ∧ p.cues = some cs) := by
  constructor
  · match fp with
    | ⟨none⟩ => simp [canSeek]
    | ⟨some p⟩ => cases hp : p.cues <;> simp [canSeek, getCues, hp]
  · intro f
    match f with
    | ⟨none⟩ => simp [adaptiveCanSeek]
    | ⟨some ⟨none⟩⟩ => simp [adaptiveCanSeek, canSeek]
    | ⟨some ⟨some p⟩⟩ => cases hp : p.cues <;> simp [adaptiveCanSeek, canSeek, getCues, hp]

/-- C8 counterexample: with the cue table present but empty, `canSeek`
returns true, refuting the claimed equivalence with "non-null and
non-empty". -/
theorem canSeek_true_on_empty_cues :
    canSeek ⟨some (mkParserState (some []) none (-1))⟩ = true ∧
    (mkParserState (some []) none (-1)).cues = some ([] : List CuePoint) ∧
    ¬ (canSeek ⟨some (mkParserState (some []) none (-1))⟩ = true ↔
        ∃ cs, (mkParserState (some []) none (-1)).cues = some cs ∧ cs ≠ []) := by
  refine ⟨by decide, by decide, ?_⟩
  intro h
  rcases h.mp (by decide) with ⟨cs, hcs, hne⟩
  exact hne (by simpa [mkParserState] using hcs.symm)

/-- C9 (amended): during segment-header parsing `segmentOffset_` is assigned
only on first sight — whenever it already differs from its unset value `-1`,
`parseSegmentHeaders` (whose `parseList_` step never writes the field, the
hypothesis on `parseListSeg`) leaves it unchanged, so re-parses cannot
overwrite it; `setSegmentOffset`, however, overwrites it whenever it is
called with a positive offset, and leaves the state untouched otherwise. -/
theorem segmentOffset_first_sight
    (parseListSeg : WebMParserState → List ℕ → ℕ → ℤ → WebMParserState × WStatus (ℕ × SegListValue))
    (st : WebMParserState) (buf : List ℕ) (start : ℕ) (size : ℤ) (bufOffset : ℚ)
    (hpl : ∀ s b o sz, ((parseListSeg s b o sz).1).segmentOffset = s.segmentOffset) :
    (st.segmentOffset ≠ -1 →
      ((parseSegmentHeaders parseListSeg st buf start size bufOffset).1).segmentOffset
        = st.segmentOffset) ∧
    (∀ off : ℚ, 0 < off → (setSegmentOffset st off).segmentOffset = off) ∧
    (∀ off : ℚ, off ≤ 0 → setSegmentOffset st off = st) := by
  refine ⟨?_, ?_, ?_⟩
  · intro hne
    unfold parseSegmentHeaders
    cases hh : parseElementHeader buf start size with
    | invalidData r => simp
    | needMoreData n => simp
    | ok hdr =>
      simp only [hh]
      by_cases hid : hdr.id ≠ some 0x18538067
      · simp [hid]
      · simp only [hid, if_neg, ite_false, if_false]
        rcases hps : parseListSeg st buf (start + hdr.bytesUsed) (size - hdr.bytesUsed)
          with ⟨st2, r⟩
        have h2 : st2.segmentOffset = st.segmentOffset := by
          have := hpl st buf (start + hdr.bytesUsed) (size - hdr.bytesUsed)
          rw [hps] at this
          exact this
        simp only [hne, if_neg, ite_false, if_false, hps]
        cases r with
        | invalidData r => simp [h2]
        | needMoreData n => simp [h2]
        | ok v => simp [apply_ite, h2]
  · intro off hoff
    simp [setSegmentOffset, hoff]
  · intro off hoff
    simp [setSegmentOffset, not_lt.mpr hoff]

/-- C9 witness: with a no-op list parser and a state whose segment offset is
already 7, a re-parse keeps 7, while `setSegmentOffset` overwrites with a
positive argument and ignores a non-positive one. -/
theorem segmentOffset_first_sight_witness :
    (({ segmentOffset := 7, seekHead := none, timecodeScale := 1000000,
        duration := -1, cues := none } : WebMParserState).segmentOffset ≠ -1 →
      ((parseSegmentHeaders (fun s _ _ _ => (s, .invalidData ""))
          { segmentOffset := 7, seekHead := none, timecodeScale := 1000000,
            duration := -1, cues := none } [] 0 0 0).1).segmentOffset
        = ({ segmentOffset := 7, seekHead := none, timecodeScale := 1000000,
             duration := -1, cues := none } : WebMParserState).segmentOffset) ∧
    (∀ off : ℚ, 0 < off →
      (setSegmentOffset { segmentOffset := 7, seekHead := none, timecodeScale := 1000000,
                          duration := -1, cues := none } off).segmentOffset = off) ∧
    (∀ off : ℚ, off ≤ 0 →
      setSegmentOffset { segmentOffset := 7, seekHead := none, timecodeScale := 1000000,
                         duration := -1, cues := none } off
        = { segmentOffset := 7, seekHead := none, timecodeScale := 1000000,
            duration := -1, cues := none }) :=
  segmentOffset_first_sight (fun s _ _ _ => (s, .invalidData ""))
    { segmentOffset := 7, seekHead := none, timecodeScale := 1000000,
      duration := -1, cues := none } [] 0 0 0 (fun _ _ _ _ => rfl)

/-- C9 counterexample: a later `setSegmentOffset` call with a positive offset
overwrites an already-assigned segment offset (10 becomes 5), refuting
"assigned exactly once and never overwritten afterwards by any operation". -/
theorem setSegmentOffset_overwrites :
    (setSegmentOffset { segmentOffset := 10, seekHead := none, timecodeScale := 1000000,
                        duration := -1, cues := none } 5).segmentOffset = 5 ∧
    (5 : ℚ) ≠ 10 := by
  refine ⟨by simp [setSegmentOffset], by norm_num⟩

/-- C6 (amended): the partial-cluster send path signals end-of-stream only
when, at the moment of the check, the video stream is at end-of-clusters
with an empty cluster queue and — when an audio stream exists — the audio
stream is too; the whole-cluster path `sendClusters` checks only the
end-of-clusters flags (see the counterexample). -/
theorem sendPartial_eos_only_when_drained (vid : StreamState) (aud : Option StreamState)
    (h : (sendPartialClusters vid aud).endOfStreamSignaled = true) :
    (sendPartialClusters vid aud).vid.endOfClusters = true ∧
    (sendPartialClusters vid aud).vid.clusterQueue = [] ∧
    (aud = none ∨ ∃ a2, (sendPartialClusters vid aud).aud = some a2 ∧
      a2.endOfClusters = true ∧ a2.clusterQueue = []) := by
  cases aud with
  | none =>
    unfold sendPartialClusters at h ⊢
    simp_all [streamEmpty]
  | some a =>
    unfold sendPartialClusters at h ⊢
    simp_all [streamEmpty]
    split_ifs at h ⊢ <;> simp_all

/-- C6 witness: a lone video stream that is end-of-clusters with a drained
queue makes the partial send path signal end-of-stream. -/
theorem sendPartial_eos_witness :
    (sendPartialClusters (mkStream [] [] false true 0 ⟨0, 0, 4, 1⟩) none).vid.endOfClusters
        = true ∧
    (sendPartialClusters (mkStream [] [] false true 0 ⟨0, 0, 4, 1⟩) none).vid.clusterQueue
        = [] ∧
    ((none : Option StreamState) = none ∨ ∃ a2,
      (sendPartialClusters (mkStream [] [] false true 0 ⟨0, 0, 4, 1⟩) none).aud = some a2 ∧
      a2.endOfClusters = true ∧ a2.clusterQueue = []) :=
  sendPartial_eos_only_when_drained (mkStream [] [] false true 0 ⟨0, 0, 4, 1⟩) none
    (by decide)

/-- C6 counterexample: `sendClusters` — the whole-cluster send path named by
the claim — signals end-of-stream for a video stream flagged end-of-clusters
even though a cluster is still queued after the pop. -/
theorem sendClusters_eos_with_queued_data :
    (sendClusters (mkStream [⟨0, 0, 4, 1⟩, ⟨1, 4, 4, 2⟩] [[1], [2]] false true 0 ⟨0, 0, 4, 1⟩)
        none).endOfStreamSignaled = true ∧
    (sendClusters (mkStream [⟨0, 0, 4, 1⟩, ⟨1, 4, 4, 2⟩] [[1], [2]] false true 0 ⟨0, 0, 4, 1⟩)
        none).vid.clusterQueue ≠ [] := by
  refine ⟨by decide, by decide⟩

/-- The survivor-carrying splice loop is Mathlib's `destutter'` on offset
disagreement. -/
theorem squishGo_eq_destutter (c : CuePoint) (l : List CuePoint) :
    squishGo c l = l.destutter'
      (fun a b => ¬ a.trackPosition.cueClusterPos = b.trackPosition.cueClusterPos) c := by
  induction l generalizing c with
  | nil => simp [squishGo, List.destutter'_nil]
  | cons n rest ih =>
    rw [squishGo, List.destutter'_cons]
    by_cases h : c.trackPosition.cueClusterPos = n.trackPosition.cueClusterPos
    · simp [h, ih]
    · simp [h, ih]

/-- `squishList` is `List.destutter` on offset disagreement: it removes
exactly the cue points whose cluster offset equals the immediately
preceding retained cue's offset. -/
theorem squishList_eq_destutter (l : List CuePoint) :
    squishList l = l.destutter
      (fun a b => ¬ a.trackPosition.cueClusterPos = b.trackPosition.cueClusterPos) := by
  cases l with
  | nil => simp [squishList, List.destutter_nil]
  | cons c rest => rw [squishList, List.destutter_cons', squishGo_eq_destutter]

/-- The splice loop only ever removes elements. -/
theorem squishGo_sublist (c : CuePoint) (l : List CuePoint) :
    List.Sublist (squishGo c l) (c :: l) := by
  rw [squishGo_eq_destutter]
  exact List.destutter'_sublist l
    (fun a b : CuePoint => ¬ a.trackPosition.cueClusterPos = b.trackPosition.cueClusterPos) c

/-- `squishList` returns a sublist of its input. -/
theorem squishList_sublist (l : List CuePoint) : List.Sublist (squishList l) l := by
  rw [squishList_eq_destutter]
  exact List.destutter_sublist
    (fun a b : CuePoint => ¬ a.trackPosition.cueClusterPos = b.trackPosition.cueClusterPos) l

/-- On a list whose offsets are non-decreasing, the splice loop leaves
pairwise distinct offsets. -/
theorem squishGo_pairwise_ne (l : List CuePoint) : ∀ c : CuePoint,
    (c :: l).Pairwise
      (fun a b => a.trackPosition.cueClusterPos ≤ b.trackPosition.cueClusterPos) →
    (squishGo c l).Pairwise
      (fun a b => ¬ a.trackPosition.cueClusterPos = b.trackPosition.cueClusterPos) := by
  induction l with
  | nil => intro c _; simp [squishGo]
  | cons n rest ih =>
    intro c h
    rw [squishGo]
    by_cases heq : c.trackPosition.cueClusterPos = n.trackPosition.cueClusterPos
    · simp only [heq, if_pos]
      exact ih c (h.sublist (by simp [List.Sublist.cons₂, List.sublist_cons_self]))
    · simp only [heq, if_neg, ite_false, if_false]
      rw [List.pairwise_cons]
      refine ⟨?_, ih n (h.sublist (List.sublist_cons_self c (n :: rest)))⟩
      intro x hx
      have hxm : x ∈ n :: rest := (squishGo_sublist n rest).mem hx
      have hcn : c.trackPosition.cueClusterPos < n.trackPosition.cueClusterPos :=
        lt_of_le_of_ne (List.rel_of_pairwise_cons h (List.mem_cons_self n rest)) heq
      rcases List.mem_cons.mp hxm with hxn | hxr
      · rw [hxn]; exact ne_of_lt hcn
      · have hnx : n.trackPosition.cueClusterPos ≤ x.trackPosition.cueClusterPos :=
          List.rel_of_pairwise_cons h.tail hxr
        exact ne_of_lt (lt_of_lt_of_le hcn hnx)

/-- C2 (amended): `squishCues` replaces the cue list by `squishList`, which
removes exactly the cue points whose offset equals the immediately preceding
retained cue's offset (it equals `List.destutter` on offset disagreement),
is idempotent on every cue list, and returns a sublist, so time order is
preserved; pairwise-unique offsets additionally need the input offsets to be
non-decreasing (see the counterexample for an unsorted list). -/
theorem squishCues_spec (st : WebMParserState) (l : List CuePoint)
    (hc : st.cues = some l) :
    (squishCues st).1.cues = some (squishList l) ∧
    (squishCues st).2 = .ok true ∧
    squishList (squishList l) = squishList l ∧
    squishList l = l.destutter
      (fun a b => ¬ a.trackPosition.cueClusterPos = b.trackPosition.cueClusterPos) ∧
    List.Sublist (squishList l) l ∧
    ((l.Pairwise fun a b => a.trackPosition.cueClusterPos ≤ b.trackPosition.cueClusterPos) →
      (squishList l).Pairwise
        fun a b => ¬ a.trackPosition.cueClusterPos = b.trackPosition.cueClusterPos) ∧
    ((l.Pairwise fun a b => a.cueTime ≤ b.cueTime) →
      (squishList l).Pairwise fun a b => a.cueTime ≤ b.cueTime) := by
  refine ⟨by simp [squishCues, hc], by simp [squishCues, hc], ?_, squishList_eq_destutter l,
    squishList_sublist l, ?_, ?_⟩
  · rw [squishList_eq_destutter, squishList_eq_destutter]
    exact List.destutter_idem _ _
  · intro h
    cases l with
    | nil => simp [squishList]
    | cons c rest =>
      rw [squishList]
      exact squishGo_pairwise_ne rest c h
  · intro h
    exact List.Pairwise.sublist (squishList_sublist l) h

/-- C2 counterexample: on a time-ordered list whose offsets are not
monotone, `squishCues` keeps two entries with the same offset 100, refuting
uniqueness of surviving offsets for arbitrary cue lists. -/
theorem squish_nonunique_offsets :
    squishList [mkCue 0 100, mkCue 1 200, mkCue 2 100]
      = [mkCue 0 100, mkCue 1 200, mkCue 2 100] ∧
    ([mkCue 0 100, mkCue 1 200, mkCue 2 100].Pairwise
      fun a b => a.cueTime ≤ b.cueTime) ∧
    ¬ ((squishList [mkCue 0 100, mkCue 1 200, mkCue 2 100]).Pairwise
      fun a b => ¬ a.trackPosition.cueClusterPos = b.trackPosition.cueClusterPos) := by
  refine ⟨by decide, by decide, by decide⟩

/-- C2 witness: the guarantees instantiated on the concrete three-cue state
`exState3`. -/
theorem squishCues_spec_witness :
    (squishCues exState3).1.cues = some (squishList exCues3) ∧
    (squishCues exState3).2 = .ok true ∧
    squishList (squishList exCues3) = squishList exCues3 ∧
    squishList exCues3 = exCues3.destutter
      (fun a b => ¬ a.trackPosition.cueClusterPos = b.trackPosition.cueClusterPos) ∧
    List.Sublist (squishList exCues3) exCues3 ∧
    ((exCues3.Pairwise fun a b => a.trackPosition.cueClusterPos ≤ b.trackPosition.cueClusterPos) →
      (squishList exCues3).Pairwise
        fun a b => ¬ a.trackPosition.cueClusterPos = b.trackPosition.cueClusterPos) ∧
    ((exCues3.Pairwise fun a b => a.cueTime ≤ b.cueTime) →
      (squishList exCues3).Pairwise fun a b => a.cueTime ≤ b.cueTime) :=
  squishCues_spec exState3 exCues3 rfl

/-- The `cueEnd` scan returns the first index at or after `k` whose offset
differs from `startOffset` (or the list length): it never moves backwards,
stays within bounds, every index it skips carries `startOffset`, and when it
stops inside the list the offset there differs. -/
theorem scanCueEnd_spec (cues : List CuePoint) (off : ℚ) : ∀ k,
    k ≤ scanCueEnd cues off k ∧
    (k ≤ cues.length → scanCueEnd cues off k ≤ cues.length) ∧
    (∀ m, k ≤ m → m < scanCueEnd cues off k →
      (cues.getD m default).trackPosition.cueClusterPos = off) ∧
    (scanCueEnd cues off k < cues.length →
      (cues.getD (scanCueEnd cues off k) default).trackPosition.cueClusterPos ≠ off) := by
  have H : ∀ n k, cues.length - k ≤ n →
      k ≤ scanCueEnd cues off k ∧
      (k ≤ cues.length → scanCueEnd cues off k ≤ cues.length) ∧
      (∀ m, k ≤ m → m < scanCueEnd cues off k →
        (cues.getD m default).trackPosition.cueClusterPos = off) ∧
      (scanCueEnd cues off k < cues.length →
        (cues.getD (scanCueEnd cues off k) default).trackPosition.cueClusterPos ≠ off) := by
    intro n
    induction n with
    | zero =>
      intro k hk
      have hkl : ¬ k < cues.length := by omega
      rw [scanCueEnd]
      simp only [hkl, if_false, ite_false]
      exact ⟨le_rfl, fun h => by omega, fun m h1 h2 => by omega, fun h => h.elim⟩
    | succ n ih =>
      intro k hk
      rw [scanCueEnd]
      by_cases hkl : k < cues.length
      · by_cases hoff : (cues.getD k default).trackPosition.cueClusterPos = off
        · simp only [hkl, hoff, if_true, ite_true, if_pos]
          obtain ⟨ge1, le1, btw1, df1⟩ := ih (k + 1) (by omega)
          refine ⟨by omega, fun _ => le1 (by omega), ?_, df1⟩
          intro m h1 h2
          rcases Nat.eq_or_lt_of_le h1 with h | h
          · rw [← h]; exact hoff
          · exact btw1 m h h2
        · simp only [hkl, hoff, if_true, ite_true, if_pos, if_neg, ite_false, if_false]
          exact ⟨le_rfl, fun _ => Nat.le_of_lt hkl, fun m h1 h2 => by omega,
            fun _ => hoff⟩
      · simp only [hkl, if_false, ite_false]
        exact ⟨le_rfl, fun h => by omega, fun m h1 h2 => by omega, fun h => h.elim⟩
  exact fun k => H (cues.length - k) k le_rfl

/-- C3 (amended): for a valid index `i` the descriptor starts at cue `i`
and there is a boundary index `j` — the first index after `i` with a
different offset — with size `cue[j].offset - cue[i].offset` and end time
`cue[j].time` when `j` is inside the list; when no such `j` exists, the end
time is the stored duration (`-1` while unknown), while the size is
`cuesOffset - cue[i].offset` whenever the stored Cues-element offset exists
and exceeds the cue's offset — regardless of whether the duration is known —
and `-1` only otherwise (the spec's "size is -1 when duration unknown" is
refuted by the counterexample). -/
theorem getCueDescFromCue_spec (st : WebMParserState) (l : List CuePoint) (i : ℕ)
    (hc : st.cues = some l) (hi : i < l.length) :
    ∃ d j, getCueDescFromCue st i = .ok d ∧
      d.time = (l.getD i default).cueTime ∧
      d.offset = (l.getD i default).trackPosition.cueClusterPos ∧
      i < j ∧ j ≤ l.length ∧
      (∀ m, i ≤ m → m < j →
        (l.getD m default).trackPosition.cueClusterPos = d.offset) ∧
      (j < l.length →
        (l.getD j default).trackPosition.cueClusterPos ≠ d.offset ∧
        d.size = (l.getD j default).trackPosition.cueClusterPos - d.offset ∧
        d.endTime = (l.getD j default).cueTime) ∧
      (j = l.length →
        d.endTime = st.duration ∧
        ((∃ sh c, st.seekHead = some sh ∧ sh.cuesOffset = some c ∧ c > d.offset ∧
            d.size = c - d.offset) ∨
         (d.size = -1 ∧ ∀ sh c, st.seekHead = some sh → sh.cuesOffset = some c →
            c ≤ d.offset))) := by
  have hne : ¬ l.length = 0 := by omega
  have hni : ¬ l.length ≤ i := by omega
  obtain ⟨ge1, le1, btw1, df1⟩ :=
    scanCueEnd_spec l (l.getD i default).trackPosition.cueClusterPos (i + 1)
  refine ⟨⟨(l.getD i default).cueTime, (l.getD i default).trackPosition.cueClusterPos,
      (if scanCueEnd l (l.getD i default).trackPosition.cueClusterPos (i + 1) < l.length then
        (l.getD (scanCueEnd l (l.getD i default).trackPosition.cueClusterPos (i + 1))
          default).trackPosition.cueClusterPos - (l.getD i default).trackPosition.cueClusterPos
      else
        match st.seekHead with
        | some sh =>
          match sh.cuesOffset with
          | some c =>
            if c > (l.getD i default).trackPosition.cueClusterPos then
              c - (l.getD i default).trackPosition.cueClusterPos
            else -1
          | none => -1
        | none => -1),
      (if scanCueEnd l (l.getD i default).trackPosition.cueClusterPos (i + 1) < l.length then
        (l.getD (scanCueEnd l (l.getD i default).trackPosition.cueClusterPos (i + 1))
          default).cueTime
      else st.duration)⟩,
    scanCueEnd l (l.getD i default).trackPosition.cueClusterPos (i + 1),
    by simp only [getCueDescFromCue, getCues, hc, hne, hni, if_false, ite_false],
    rfl, rfl, by omega, le1 (by omega), ?_, ?_, ?_⟩
  · intro m h1 h2
    rcases Nat.eq_or_lt_of_le h1 with h | h
    · rw [← h]
    · exact btw1 m h h2
  · intro hlt
    refine ⟨df1 hlt, ?_, ?_⟩ <;> dsimp only <;> rw [if_pos hlt]
  · intro heq
    have hlt : ¬ scanCueEnd l (l.getD i default).trackPosition.cueClusterPos (i + 1)
        < l.length := by omega
    refine ⟨by dsimp only; rw [if_neg hlt], ?_⟩
    dsimp only
    rw [if_neg hlt]
    cases hsh : st.seekHead with
    | none =>
      exact Or.inr ⟨rfl, fun sh c h1 _ => Option.noConfusion h1⟩
    | some sh =>
      dsimp only
      cases hcu : sh.cuesOffset with
      | none =>
        refine Or.inr ⟨rfl, fun sh2 c2 h1 h2 => ?_⟩
        injection h1 with h1
        rw [← h1, hcu] at h2
        cases h2
      | some c =>
        dsimp only
        by_cases hgt : c > (l.getD i default).trackPosition.cueClusterPos
        · exact Or.inl ⟨sh, c, rfl, hcu, hgt, by rw [if_pos hgt]⟩
        · refine Or.inr ⟨by rw [if_neg hgt], fun sh2 c2 h1 h2 => ?_⟩
          injection h1 with h1
          rw [← h1, hcu] at h2
          injection h2 with h2
          rw [← h2]
          exact not_lt.mp hgt

/-- C3 counterexample: on the spec's own example (post-squish offsets
100/250/400, Cues element at 500) the sizes are 150, 150, 100 as claimed,
but with the duration still unknown (-1) the last descriptor reports
size 100 with endTime -1 — not size -1 as the claim states. -/
theorem getCueDesc_size_known_duration_unknown :
    getCueDescFromCue exState3 0 = .ok ⟨0, 100, 150, 1⟩ ∧
    getCueDescFromCue exState3 1 = .ok ⟨1, 250, 150, 2⟩ ∧
    getCueDescFromCue exState3 2 = .ok ⟨2, 400, 100, -1⟩ ∧
    exState3.duration = -1 ∧
    (100 : ℚ) ≠ -1 := by
  refine ⟨?_, ?_, ?_, by decide, by norm_num⟩ <;>
    · simp [getCueDescFromCue, getCues, exState3, mkParserState, exCues3, scanCueEnd, mkCue]
      norm_num

/-- C3 witness: the amended descriptor derivation instantiated at index 0 of
the concrete three-cue state. -/
theorem getCueDescFromCue_spec_witness :
    ∃ d j, getCueDescFromCue exState3 0 = .ok d ∧
      d.time = (exCues3.getD 0 default).cueTime ∧
      d.offset = (exCues3.getD 0 default).trackPosition.cueClusterPos ∧
      0 < j ∧ j ≤ exCues3.length ∧
      (∀ m, 0 ≤ m → m < j →
        (exCues3.getD m default).trackPosition.cueClusterPos = d.offset) ∧
      (j < exCues3.length →
        (exCues3.getD j default).trackPosition.cueClusterPos ≠ d.offset ∧
        d.size = (exCues3.getD j default).trackPosition.cueClusterPos - d.offset ∧
        d.endTime = (exCues3.getD j default).cueTime) ∧
      (j = exCues3.length →
        d.endTime = exState3.duration ∧
        ((∃ sh c, exState3.seekHead = some sh ∧ sh.cuesOffset = some c ∧ c > d.offset ∧
            d.size = c - d.offset) ∨
         (d.size = -1 ∧ ∀ sh c, exState3.seekHead = some sh → sh.cuesOffset = some c →
            c ≤ d.offset))) :=
  getCueDescFromCue_spec exState3 exCues3 0 rfl (by decide)

/-- C1 (amended): when at least one byte is in the window and the varint's
marker byte (which fixes the total byte count `req`) demands more bytes than
are available, `parseNum_` reports `NeedMoreData` with deficit exactly
`req - size` — in particular it never reports `Invalid` there; but when the
window is empty (or negative) the marker byte cannot be inspected and the
decoder reports a fixed deficit of 1 (the marker byte itself), not
`req - size` (see the counterexample). -/
theorem parseNum_exact_deficit (buf : List ℕ) (start : ℕ) (size : ℤ) (maxBytes : ℕ)
    (mfb : Bool) (req : ℕ)
    (hreq : ebmlRequiredBytes buf start maxBytes = some req)
    (hpos : 0 < size) (hlt : size < (req : ℤ)) :
    parseNum buf start size maxBytes mfb = .needMoreData ((req : ℤ) - size) ∧
    ∀ size0 : ℤ, size0 ≤ 0 → parseNum buf start size0 maxBytes mfb = .needMoreData 1 := by
  constructor
  · obtain ⟨i, hmi, hi⟩ := Option.map_eq_some'.mp hreq
    rw [parseNum, if_neg (by omega)]
    simp only [hmi]
    rw [if_pos (by omega)]
    congr 1
    omega
  · intro size0 h0
    rw [parseNum, if_pos h0]

/-- C1 witness: byte 0x10 opens a four-byte varint; with only two bytes in
the window the deficit is exactly 4 - 2 = 2, and an empty window reports
deficit 1. -/
theorem parseNum_exact_deficit_witness :
    parseNum [16, 1, 2, 3] 0 2 8 true = .needMoreData ((4 : ℤ) - 2) ∧
    ∀ size0 : ℤ, size0 ≤ 0 → parseNum [16, 1, 2, 3] 0 size0 8 true = .needMoreData 1 :=
  parseNum_exact_deficit [16, 1, 2, 3] 0 2 8 true 4 (by decide) (by decide) (by decide)

/-- C1 counterexample: with zero bytes available in front of the four-byte
varint opened by 0x10, the decoder reports deficit 1, not the claimed
`requiredBytes - availableBytes = 4`. -/
theorem parseNum_zero_window_deficit_one :
    ebmlRequiredBytes [16] 0 8 = some 4 ∧
    parseNum [16] 0 0 8 true = .needMoreData 1 ∧
    parseNum [16] 0 0 8 true ≠ .needMoreData ((4 : ℤ) - 0) := by
  refine ⟨by decide, by decide, by decide⟩

/-- `getCueIndexFromTime` on the heavy-cue state at time 0 picks index 0. -/
theorem exHeavy_idx : getCueIndexFromTime exStateHeavy 0 = .ok 0 := by
  rw [getCueIndexFromTime]
  simp only [getCues, exStateHeavy, mkParserState, exCuesHeavy, mkCue]
  norm_num
  rw [bsearchTime]
  norm_num
  rw [bsearchTime]
  norm_num

/-- Descriptor of the first heavy-state cue: 125000 bytes covering 100 s. -/
theorem exHeavy_d0 : getCueDescFromCue exStateHeavy 0 = .ok ⟨0, 0, 125000, 100⟩ := by
  simp [getCueDescFromCue, getCues, exStateHeavy, mkParserState, exCuesHeavy, scanCueEnd, mkCue]

/-- Descriptor of the second heavy-state cue: 125000000 bytes covering 1 s. -/
theorem exHeavy_d1 : getCueDescFromCue exStateHeavy 1 = .ok ⟨100, 125000, 125000000, 101⟩ := by
  simp [getCueDescFromCue, getCues, exStateHeavy, mkParserState, exCuesHeavy, scanCueEnd, mkCue]
  norm_num

/-- At 1 kbps the walk truncates inside the first cue: 999 wallclock seconds
yield 99.9 s of media. -/
theorem exHeavy_loop1 : bufLoop exStateHeavy 3 999 1 0 0 0 = .ok (999, 999 / 10) := by
  rw [bufLoop]
  norm_num [exHeavy_d0]

/-- At 2 kbps the first cue fits and the walk truncates inside the heavy
second cue; uniform pro-rating scales the whole 101 s of media down to about
0.2 s. -/
theorem exHeavy_loop2 : bufLoop exStateHeavy 3 999 2 0 0 0 = .ok (999, 100899 / 500500) := by
  rw [bufLoop]
  norm_num [exHeavy_d0]
  rw [bufLoop]
  norm_num [exHeavy_d1]

/-- The heavy state's cue table. -/
theorem exHeavy_cues : getCues exStateHeavy = some exCuesHeavy :=
  rfl

/-- The heavy state has three cues. -/
theorem exHeavy_len : exCuesHeavy.length = 3 :=
  rfl

/-- The time-bounded projection on the heavy state at 1 kbps. -/
theorem exHeavy_run1 : bufferSizeAfterTime exStateHeavy 0 999 1 0 = .ok (999, 999 / 10 - 999) := by
  simp only [bufferSizeAfterTime, exHeavy_idx, exHeavy_d0, exHeavy_cues, exHeavy_len]
  norm_num [exHeavy_loop1]

/-- The time-bounded projection on the heavy state at 2 kbps. -/
theorem exHeavy_run2 : bufferSizeAfterTime exStateHeavy 0 999 2 0
    = .ok (999, 100899 / 500500 - 999) := by
  simp only [bufferSizeAfterTime, exHeavy_idx, exHeavy_d0, exHeavy_cues, exHeavy_len]
  norm_num [exHeavy_loop2]

/-- C5 counterexample: doubling the rate from 1 kbps to 2 kbps makes the
projected buffer drop from -899.1 to about -998.8, because the faster rate
crosses into a very heavy cue and the truncation pro-rates the whole
accumulated media time, not just the boundary cue. -/
theorem bufferSizeAfterTime_not_monotone :
    (0 : ℚ) < 1 ∧ (1 : ℚ) ≤ 2 ∧
    bufferSizeAfterTime exStateHeavy 0 999 1 0 = .ok (999, 999 / 10 - 999) ∧
    bufferSizeAfterTime exStateHeavy 0 999 2 0 = .ok (999, 100899 / 500500 - 999) ∧
    (100899 / 500500 - 999 : ℚ) < 999 / 10 - 999 := by
  exact ⟨by norm_num, by norm_num, exHeavy_run1, exHeavy_run2, by norm_num⟩

/-- The cue walk of `bufferSizeAfterTime`, run at a higher rate from a
state at most as far along, completes the same cue span with no more
wallclock time whenever the lower-rate walk finishes without reaching the
horizon (all cue sizes nonnegative). -/
theorem bufLoop_mono (st : WebMParserState) (n : ℕ) (T k1 k2 : ℚ)
    (hk1 : 0 < k1) (hk12 : k1 ≤ k2)
    (hsz : ∀ j d, getCueDescFromCue st j = .ok d → 0 ≤ d.size) :
    ∀ fuel index D1 D2 M s1 M1, n - index ≤ fuel →
      bufLoop st n T k1 index D1 M = .ok (s1, M1) → s1 < T → D2 ≤ D1 →
      ∃ s2, bufLoop st n T k2 index D2 M = .ok (s2, M1) ∧ s2 ≤ s1 := by
  have hk2 : 0 < k2 := lt_of_lt_of_le hk1 hk12
  intro fuel
  induction fuel with
  | zero =>
    intro index D1 D2 M s1 M1 hfuel hrun hs1 hD
    have hni : ¬ index < n := by omega
    rw [bufLoop, if_neg (by tauto)] at hrun
    rw [bufLoop, if_neg (by tauto)]
    simp only [WStatus.ok.injEq, Prod.mk.injEq] at hrun ⊢
    exact ⟨D2, ⟨rfl, hrun.2⟩, by linarith [hrun.1]⟩
  | succ fuel ih =>
    intro index D1 D2 M s1 M1 hfuel hrun hs1 hD
    by_cases hidx : index < n
    · by_cases hD1T : D1 < T
      · rw [bufLoop, if_pos ⟨hidx, hD1T⟩] at hrun
        cases hd : getCueDescFromCue st index with
        | invalidData r => simp [hd] at hrun
        | needMoreData nn => simp [hd] at hrun
        | ok d =>
          simp only [hd] at hrun
          have ha : (0 : ℚ) ≤ d.size * 8 / 1000 := by
            have := hsz index d hd
            positivity
          have hc : d.size * 8 / 1000 / k2 ≤ d.size * 8 / 1000 / k1 := by
            rw [div_le_div_iff₀ hk2 hk1]
            exact mul_le_mul_of_nonneg_left hk12 ha
          by_cases htr : D1 + d.size * 8 / 1000 / k1 > T
          · rw [if_pos htr] at hrun
            simp only [WStatus.ok.injEq, Prod.mk.injEq] at hrun
            exact absurd hs1 (by rw [← hrun.1]; exact lt_irrefl T)
          · rw [if_neg htr] at hrun
            have htr2 : ¬ D2 + d.size * 8 / 1000 / k2 > T := by
              push_neg at htr ⊢
              linarith
            obtain ⟨s2, hrun2, hs2⟩ := ih (index + 1) (D1 + d.size * 8 / 1000 / k1)
              (D2 + d.size * 8 / 1000 / k2) (M + (d.endTime - d.time)) s1 M1
              (by omega) hrun hs1 (by linarith)
            refine ⟨s2, ?_, hs2⟩
            rw [bufLoop, if_pos ⟨hidx, lt_of_le_of_lt hD hD1T⟩]
            simp only [hd]
            rw [if_neg htr2]
            exact hrun2
      · rw [bufLoop, if_neg (by tauto)] at hrun
        simp only [WStatus.ok.injEq, Prod.mk.injEq] at hrun
        exact absurd hs1 (by rw [← hrun.1]; exact hD1T)
    · rw [bufLoop, if_neg (by tauto)] at hrun
      rw [bufLoop, if_neg (by tauto)]
      simp only [WStatus.ok.injEq, Prod.mk.injEq] at hrun ⊢
      exact ⟨D2, ⟨rfl, hrun.2⟩, by linarith [hrun.1]⟩

/-- C5 (amended): the time-bounded projection is monotone in `kbps`
provided the lower-rate projection completes its cue walk without reaching
the wallclock horizon (returned `seconds < timeToSearch`), every cue
descriptor size is nonnegative, and a start time falling strictly inside
the starting cue lies within that cue's positive time span; when the
horizon is hit mid-walk the pro-rating can make a higher rate project a
smaller buffer (see the counterexample). -/
theorem bufferSizeAfterTime_mono_in_kbps (st : WebMParserState)
    (time T k1 k2 B s1 b1 : ℚ)
    (hk1 : 0 < k1) (hk12 : k1 ≤ k2)
    (hsz : ∀ j d, getCueDescFromCue st j = .ok d → 0 ≤ d.size)
    (hstart : ∀ i d, getCueIndexFromTime st time = .ok i →
      getCueDescFromCue st i = .ok d → d.time < time →
      time ≤ d.endTime ∧ d.time < d.endTime)
    (hrun : bufferSizeAfterTime st time T k1 B = .ok (s1, b1))
    (hs1 : s1 < T) :
    ∃ s2 b2, bufferSizeAfterTime st time T k2 B = .ok (s2, b2) ∧ b1 ≤ b2 ∧ s2 ≤ s1 := by
  have hk2 : 0 < k2 := lt_of_lt_of_le hk1 hk12
  rw [bufferSizeAfterTime] at hrun
  rw [bufferSizeAfterTime]
  cases hidx : getCueIndexFromTime st time with
  | invalidData r => simp [hidx] at hrun
  | needMoreData nn => simp [hidx] at hrun
  | ok i =>
    simp only [hidx] at hrun ⊢
    cases hd : getCueDescFromCue st i with
    | invalidData r => simp [hd] at hrun
    | needMoreData nn => simp [hd] at hrun
    | ok d =>
      simp only [hd] at hrun ⊢
      cases hcues : getCues st with
      | none => simp [hcues] at hrun
      | some l =>
        simp only [hcues] at hrun ⊢
        by_cases hlen : l.length = 0
        · simp [hlen] at hrun
        · simp only [hlen, if_false, ite_false] at hrun ⊢
          by_cases hb : time > d.time
          · obtain ⟨h1, h2⟩ := hstart i d hidx hd hb
            have hsznn := hsz i d hd
            have hcs : (0 : ℚ) ≤ d.endTime - time := by linarith
            have hden : (0 : ℚ) < d.endTime - d.time := by linarith
            have hbase : (0 : ℚ) ≤ d.size * ((d.endTime - time) / (d.endTime - d.time)) * 8 / 1000 := by
              positivity
            have hcc : d.size * ((d.endTime - time) / (d.endTime - d.time)) * 8 / 1000 / k2
                ≤ d.size * ((d.endTime - time) / (d.endTime - d.time)) * 8 / 1000 / k1 := by
              rw [div_le_div_iff₀ hk2 hk1]
              exact mul_le_mul_of_nonneg_left hk12 hbase
            simp only [if_pos hb] at hrun ⊢
            by_cases htr : d.size * ((d.endTime - time) / (d.endTime - d.time)) * 8 / 1000 / k1 > T
            · rw [if_pos htr] at hrun
              rw [bufLoop, if_neg (by intro hcon; exact absurd hcon.2 (lt_irrefl T))] at hrun
              simp only [WStatus.ok.injEq, Prod.mk.injEq] at hrun
              exact absurd hs1 (by rw [← hrun.1]; exact lt_irrefl T)
            · rw [if_neg htr] at hrun
              have htr2 : ¬ d.size * ((d.endTime - time) / (d.endTime - d.time)) * 8 / 1000 / k2 > T := by
                push_neg at htr ⊢
                linarith
              rw [if_neg htr2]
              cases hloop : bufLoop st l.length T k1 (i + 1)
                  (d.size * ((d.endTime - time) / (d.endTime - d.time)) * 8 / 1000 / k1)
                  (d.endTime - time) with
              | invalidData r => simp [hloop] at hrun
              | needMoreData nn => simp [hloop] at hrun
              | ok p =>
                obtain ⟨sA, MA⟩ := p
                simp only [hloop, WStatus.ok.injEq, Prod.mk.injEq] at hrun
                obtain ⟨hsA, hbA⟩ := hrun
                obtain ⟨s2, hl2, hs2⟩ := bufLoop_mono st l.length T k1 k2 hk1 hk12 hsz
                  (l.length - (i + 1)) (i + 1)
                  (d.size * ((d.endTime - time) / (d.endTime - d.time)) * 8 / 1000 / k1)
                  (d.size * ((d.endTime - time) / (d.endTime - d.time)) * 8 / 1000 / k2)
                  (d.endTime - time) sA MA le_rfl hloop (by rw [hsA]; exact hs1) hcc
                refine ⟨s2, MA - s2 + B, ?_, ?_, ?_⟩
                · simp only [hl2]
                · rw [← hbA]
                  linarith
                · rw [← hsA]
                  exact hs2
          · simp only [if_neg hb] at hrun ⊢
            cases hloop : bufLoop st l.length T k1 i 0 0 with
            | invalidData r => simp [hloop] at hrun
            | needMoreData nn => simp [hloop] at hrun
            | ok p =>
              obtain ⟨sA, MA⟩ := p
              simp only [hloop, WStatus.ok.injEq, Prod.mk.injEq] at hrun
              obtain ⟨hsA, hbA⟩ := hrun
              obtain ⟨s2, hl2, hs2⟩ := bufLoop_mono st l.length T k1 k2 hk1 hk12 hsz
                (l.length - i) i 0 0 0 sA MA le_rfl hloop (by rw [hsA]; exact hs1) le_rfl
              refine ⟨s2, MA - s2 + B, ?_, ?_, ?_⟩
              · simp only [hl2]
              · rw [← hbA]
                linarith
              · rw [← hsA]
                exact hs2

/-- `getCueIndexFromTime` on the one-cue state at time 0 picks index 0. -/
theorem exOne_idx : getCueIndexFromTime exStateOneCue 0 = .ok 0 := by
  rw [getCueIndexFromTime]
  simp only [getCues, exStateOneCue, mkParserState, mkCue]
  norm_num
  rw [bsearchTime]
  norm_num

/-- Descriptor of the single cue: 1000 bytes covering 10 s. -/
theorem exOne_d0 : getCueDescFromCue exStateOneCue 0 = .ok ⟨0, 0, 1000, 10⟩ := by
  simp [getCueDescFromCue, getCues, exStateOneCue, mkParserState, scanCueEnd, mkCue]

/-- Indices past the single cue are out of bounds. -/
theorem exOne_oob (j : ℕ) :
    getCueDescFromCue exStateOneCue (j + 1) = .invalidData "Cues index is out of bounds." := by
  rw [getCueDescFromCue]
  simp only [getCues, exStateOneCue, mkParserState, mkCue]
  rw [if_neg (by norm_num), if_pos (by simp)]

/-- The walk over the single cue costs 8 wallclock seconds for 10 s of
media at 1 kbps and finishes before the 100 s horizon. -/
theorem exOne_loop : bufLoop exStateOneCue 1 100 1 0 0 0 = .ok (8, 10) := by
  rw [bufLoop]
  norm_num [exOne_d0]
  rw [bufLoop]
  norm_num

/-- The one-cue state's cue table. -/
theorem exOne_cues : getCues exStateOneCue = some [mkCue 0 0] :=
  rfl

/-- The projection on the one-cue state at 1 kbps: 8 s spent, 2 s buffered. -/
theorem exOne_run1 : bufferSizeAfterTime exStateOneCue 0 100 1 0 = .ok (8, 2) := by
  simp only [bufferSizeAfterTime, exOne_idx, exOne_d0, exOne_cues]
  norm_num [exOne_loop]

/-- C5 witness: on the one-cue state the 1 kbps run finishes under the
horizon with buffer 2, so the 2 kbps run projects at least as much buffer
in at most the same wallclock time. -/
theorem bufferSizeAfterTime_mono_witness :
    ∃ s2 b2, bufferSizeAfterTime exStateOneCue 0 100 2 0 = .ok (s2, b2) ∧
      (2 : ℚ) ≤ b2 ∧ s2 ≤ 8 :=
  bufferSizeAfterTime_mono_in_kbps exStateOneCue 0 100 1 2 0 8 2
    (by norm_num) (by norm_num)
    (by
      intro j d h
      match j with
      | 0 =>
        rw [exOne_d0] at h
        injection h with h
        rw [← h]
        norm_num
      | jj + 1 =>
        rw [exOne_oob jj] at h
        cases h)
    (by
      intro i d hi hd hlt
      rw [exOne_idx] at hi
      injection hi with hi
      rw [← hi] at hd
      rw [exOne_d0] at hd
      injection hd with hd
      rw [← hd] at hlt
      norm_num at hlt)
    exOne_run1 (by norm_num)
